import Mathlib

/-!
# Verification of the lava-api pagination/streaming core

A shallow embedding of the pagination, enrichment, query-set and tag-cache
code of the `lava-api` crate, together with theorems settling the stated
properties of that code.

The embedding follows `src/paginator.rs`, `src/device.rs`, `src/job.rs`,
`src/lib.rs` and `lava-api/src/queryset.rs`.  External collaborators (the
HTTP client, the `url` crate, the remote server) are modelled as explicit
environments supplying the results of their calls; the state machines and
all control flow are translated directly from the Rust source.
-/

namespace LavaApi

/-- The error type `PaginationError` of `src/paginator.rs`.  `reqWest`
covers all `reqwest::Error` values (transport failure, `error_for_status`,
JSON body decoding); `parseNextError` carries the offending text of the
next link (the source carries the `url::ParseError` produced by it). -/
inductive PaginationError where
  | reqWest (msg : String)
  | redirectMissing
  | redirectInvalidUTF8
  | tooManyRedirects
  | parseNextError (msg : String)
deriving DecidableEq, Repr

/-- The wire shape `PaginatedReply<T>` of `src/paginator.rs`:
`{ count, next, results }`. -/
structure PaginatedReply (T : Type) where
  count : Nat
  next : Option String
  results : List T
deriving DecidableEq, Repr

/-- The state `enum State<T>` of `src/paginator.rs`: a buffered page, a
pending page fetch (identified by the URL it fetches), or the terminal
failed state. -/
inductive PagState (U T : Type) where
  | data (d : PaginatedReply T)
  | next (url : U)
  | failed
deriving DecidableEq, Repr

/-- The struct `Paginator<T>` of `src/paginator.rs` (the `Client` field
carries no visible state and is omitted; `U` is the `url::Url` type,
kept abstract). -/
structure Paginator (U T : Type) where
  current : U
  next : PagState U T
  count : Option Nat
deriving DecidableEq, Repr

/-- The external collaborators of the paginator: `parse` is
`str::parse::<url::Url>` and `fetch` is the completed result of
`Paginator::get` for a URL (the network). -/
structure PagEnv (U T : Type) where
  parse : String → Option U
  fetch : U → Except PaginationError (PaginatedReply T)

/-- `std::task::Poll`. -/
inductive Poll (A : Type) where
  | ready (a : A)
  | pending
deriving DecidableEq, Repr

/-- `Paginator::next_data` of `src/paginator.rs` (lines 106-128): pop the
head of the buffered page; on an exhausted buffer parse the next link and
schedule its fetch, or transition to `Failed` when the link does not
parse. -/
def next_data {U T : Type} (env : PagEnv U T) (p : Paginator U T) :
    Paginator U T × Except PaginationError (Option T) :=
  match p.next with
  | PagState.data d =>
    let p := { p with count := some d.count }
    match d.results with
    | x :: rest =>
        ({ p with next := PagState.data { d with results := rest } },
         Except.ok (some x))
    | [] =>
      match d.next with
      | some n =>
        match env.parse n with
        | some u =>
            ({ p with next := PagState.next u, current := u }, Except.ok none)
        | none =>
            ({ p with next := PagState.failed },
             Except.error (PaginationError.parseNextError n))
      | none => (p, Except.ok none)
  | _ => (p, Except.ok none)

/-- `impl Stream for Paginator — poll_next` of `src/paginator.rs` (lines
141-168), in the model where a pending page fetch completes at the poll
that observes it (its outcome given by `env.fetch`).  On a fetch error
the same URL (`self.current`) is re-scheduled and the error is returned
as the current item, exactly as in the source. -/
def poll_next {U T : Type} (env : PagEnv U T) (p : Paginator U T) :
    Paginator U T × Poll (Option (Except PaginationError T)) :=
  match next_data env p with
  | (p, Except.error e) => (p, Poll.ready (some (Except.error e)))
  | (p, Except.ok (some x)) => (p, Poll.ready (some (Except.ok x)))
  | (p, Except.ok none) =>
    match p.next with
    | PagState.next u =>
      match env.fetch u with
      | Except.ok r =>
        let p := { p with next := PagState.data r }
        match next_data env p with
        | (p, Except.error e) => (p, Poll.ready (some (Except.error e)))
        | (p, Except.ok (some x)) => (p, Poll.ready (some (Except.ok x)))
        | (p, Except.ok none) => (p, Poll.pending)
      | Except.error e =>
        ({ p with next := PagState.next p.current },
         Poll.ready (some (Except.error e)))
    | _ => (p, Poll.ready none)

/-- Repeatedly poll a paginator stream, collecting the yielded items.
Returns the items in order, a flag recording whether end-of-stream
(`Poll::Ready(None)`) was reached within the fuel, and the final state. -/
def collect {U T : Type} (env : PagEnv U T) :
    Nat → Paginator U T →
    List (Except PaginationError T) × Bool × Paginator U T
  | 0, p => ([], false, p)
  | Nat.succ fuel, p =>
    match poll_next env p with
    | (p, Poll.ready none) => ([], true, p)
    | (p, Poll.ready (some x)) =>
      let r := collect env fuel p
      (x :: r.1, r.2.1, r.2.2)
    | (p, Poll.pending) => collect env fuel p

/-! ## The redirect-following fetch loop (`Paginator::get`) -/

/-- A URL as seen by the redirect loop: its scheme plus the remainder
(authority, path, query), which the loop never inspects. -/
structure MUrl where
  scheme : String
  rest : String
deriving DecidableEq, Repr

/-- The outcome of processing a `location` response header for the current
URL `u`: the bytes are not UTF-8, `u.join(location)` fails with a
`url::ParseError` (whose text is carried), or joining resolves to a URL. -/
inductive Location where
  | invalidUTF8
  | unparseable (msg : String)
  | resolvesTo (u : MUrl)
deriving DecidableEq, Repr

/-- One scripted HTTP exchange inside `Paginator::get`: the request either
fails at transport level (`send()` errors), receives a non-redirection
status (breaking the loop), or receives a redirection status with the
given `location` header (`none` = header absent). -/
inductive HttpResponse where
  | success
  | transportError (msg : String)
  | redirect (loc : Option Location)
deriving DecidableEq, Repr

/-- Result of the redirect loop of `Paginator::get`: the loop broke out of
redirect-following at `finalUrl` (whose response body is then decoded),
failed with a `PaginationError`, or ran out of scripted responses. -/
inductive FetchOutcome where
  | success (finalUrl : MUrl)
  | failure (e : PaginationError)
  | starved
deriving DecidableEq, Repr

/-- The redirect-following loop of `Paginator::get` in `src/paginator.rs`
(lines 69-97).  `origUri` is the argument `uri` (its scheme decides the
downgrade protection), `u` the current request URL, `redirects` the hop
counter.  Returns the list of all request URLs issued, in order, together
with the outcome.  Each loop iteration issues a request for `u` and
consumes the next scripted response. -/
def getLoop (origUri : MUrl) :
    List HttpResponse → MUrl → Nat → List MUrl × FetchOutcome
  | [], u, _ => ([u], FetchOutcome.starved)
  | r :: rs, u, redirects =>
    match r with
    | HttpResponse.transportError m =>
        ([u], FetchOutcome.failure (PaginationError.reqWest m))
    | HttpResponse.success => ([u], FetchOutcome.success u)
    | HttpResponse.redirect loc =>
      if redirects > 9 then
        ([u], FetchOutcome.failure PaginationError.tooManyRedirects)
      else
        match loc with
        | none => ([u], FetchOutcome.failure PaginationError.redirectMissing)
        | some Location.invalidUTF8 =>
            ([u], FetchOutcome.failure PaginationError.redirectInvalidUTF8)
        | some (Location.unparseable m) =>
            ([u], FetchOutcome.failure (PaginationError.parseNextError m))
        | some (Location.resolvesTo u2) =>
          let u3 := if origUri.scheme = "https" ∧ u2.scheme = "http"
                    then { u2 with scheme := "https" } else u2
          let res := getLoop origUri rs u3 (redirects + 1)
          (u :: res.1, res.2)

/-- `Paginator::get client uri`: run the redirect loop from `uri` with the
hop counter at `0`, against the scripted responses. -/
def get (uri : MUrl) (script : List HttpResponse) : List MUrl × FetchOutcome :=
  getLoop uri script uri 0

/-- A response chain consisting of one redirect per element of `targets`
(each with a valid `location` resolving to that target) followed by a
non-redirection response. -/
def redirectChain (targets : List MUrl) : List HttpResponse :=
  targets.map (fun t => HttpResponse.redirect (some (Location.resolvesTo t)))
    ++ [HttpResponse.success]

/-! ## A stable paginated server -/

/-- Split a list into pages of size `s + 1` (so every page size is at
least 1), preserving order. -/
def chunks {T : Type} (s : Nat) : List T → List (List T)
  | [] => []
  | x :: xs => (x :: xs.take s) :: chunks s (xs.drop s)
termination_by l => l.length
decreasing_by simp; omega

/-- The pages a stable server serves for collection `items` with page size
`size ≥ 1`: an empty collection is served as one empty page, otherwise as
the chunks of `items`. -/
def paginate {T : Type} (size : Nat) (items : List T) : List (List T) :=
  if items.isEmpty then [[]] else chunks (size - 1) items

/-- The next-link text the stable server uses for page `i` (any injective,
parseable encoding of the page index). -/
def pageLink (i : Nat) : String :=
  String.mk (List.replicate i 'a')

/-- The environment of a stable remote collection: URLs are page indices,
a next link decodes to its page index, and fetching page `i` succeeds with
the `i`-th page, the declared total, and a next link exactly when a
further page exists. -/
def pageEnv {T : Type} (pages : List (List T)) (total : Nat) : PagEnv Nat T where
  parse s := some s.data.length
  fetch i :=
    if h : i < pages.length then
      Except.ok
        { count := total
        , next := if i + 1 < pages.length then some (pageLink (i + 1)) else none
        , results := pages.get ⟨i, h⟩ }
    else Except.error (PaginationError.reqWest "404")

/-- The paginator as constructed by `Paginator::new` over the stable
server: a fetch of page 0 is scheduled, `current` is the initial URL,
and no count has been observed. -/
def initialPaginator (T : Type) : Paginator Nat T :=
  { current := 0, next := PagState.next 0, count := none }

/-! ## The enrichment streams (`Devices` / `Jobs`) -/

/-- The per-item state `enum State` of `src/device.rs` / `PagingState` of
`src/job.rs`: pulling the next raw DTO, or holding the in-flight
transform future (represented by its eventual result). -/
inductive TransformState (D : Type) where
  | paging
  | transforming (d : D)
deriving DecidableEq, Repr

/-- The `Devices` / `Jobs` stream: an underlying paginator of raw DTOs
plus the two-phase per-item state. -/
structure EnrichStream (U R D : Type) where
  pag : Paginator U R
  state : TransformState D
deriving DecidableEq, Repr

/-- `impl Stream for Devices — poll_next` of `src/device.rs` (lines
108-138) and its twin in `src/job.rs` (lines 326-356), with the transform
future (`transform_device` / `transform_job`) modelled by the function
`f` and completing at the poll that observes it.  In `Paging`, pull from
the paginator: end and errors are forwarded with the state left in
`Paging`; an item `d` moves to `Transforming`, whose completion yields
`f d` and returns the state to `Paging`. -/
def enrich_poll {U R D : Type} (env : PagEnv U R) (f : R → D)
    (e : EnrichStream U R D) :
    EnrichStream U R D × Poll (Option (Except PaginationError D)) :=
  match e.state with
  | TransformState.transforming d =>
      ({ e with state := TransformState.paging },
       Poll.ready (some (Except.ok d)))
  | TransformState.paging =>
    match poll_next env e.pag with
    | (p, Poll.ready none) =>
        (⟨p, TransformState.paging⟩, Poll.ready none)
    | (p, Poll.ready (some (Except.error err))) =>
        (⟨p, TransformState.paging⟩, Poll.ready (some (Except.error err)))
    | (p, Poll.ready (some (Except.ok d))) =>
        (⟨p, TransformState.paging⟩, Poll.ready (some (Except.ok (f d))))
    | (p, Poll.pending) =>
        (⟨p, TransformState.paging⟩, Poll.pending)

/-- Repeatedly poll an enrichment stream, collecting the yielded items. -/
def collectEnrich {U R D : Type} (env : PagEnv U R) (f : R → D) :
    Nat → EnrichStream U R D →
    List (Except PaginationError D) × Bool × EnrichStream U R D
  | 0, e => ([], false, e)
  | Nat.succ fuel, e =>
    match enrich_poll env f e with
    | (e, Poll.ready none) => ([], true, e)
    | (e, Poll.ready (some x)) =>
      let r := collectEnrich env f fuel e
      (x :: r.1, r.2.1, r.2.2)
    | (e, Poll.pending) => collectEnrich env f fuel e

/-! ## The query-set builder (`lava-api/src/queryset.rs`)

The enumeration `Q` is a closed finite type (`QuerySetMember`, whose
`all()` enumerates it).  The `HashSet<Q>` of allowed values is modelled
as a `Finset Q`.  A rendered query value is represented by the set of
values it joins: the source renders a set of several values as the
comma-join of their `Display` strings in unspecified order, a singleton
as its sole value's string, and the empty set as the empty string, so
the `Finset` determines the rendering up to the unspecified order. -/

/-- `QuerySet<Q>` of `lava-api/src/queryset.rs`: the optional allowed set
(`None` = no filtering requested) and the Django field name. -/
structure QuerySet (Q : Type) where
  values : Option (Finset Q)
  field_name : String

/-- `QuerySet::new`. -/
def QuerySet.new (Q : Type) (field_name : String) : QuerySet Q :=
  { values := none, field_name := field_name }

/-- `QuerySet::include` (lines 48-51): insert the value into the allowed
set, starting from the empty set when no constraint exists yet.  (Named
`include'` because `include` is a Lean keyword.) -/
def QuerySet.include' {Q : Type} [DecidableEq Q] (qs : QuerySet Q) (value : Q) :
    QuerySet Q :=
  { qs with values := some (insert value (qs.values.getD ∅)) }

/-- `QuerySet::exclude` (lines 65-70): remove the value from the allowed
set, starting from the full enumeration when no constraint exists yet. -/
def QuerySet.exclude {Q : Type} [Fintype Q] [DecidableEq Q]
    (qs : QuerySet Q) (value : Q) : QuerySet Q :=
  { qs with values := some ((qs.values.getD Finset.univ).erase value) }

/-- `QuerySet::query` (lines 80-101), with the rendered value abstracted
to the `Finset` it joins.  The branches are in source order: an empty set
renders `(field__in, "")` (the join of no values), a singleton renders
`(field, v)` (its sole value, no `__in` mangling), a set equal to the full
enumeration renders nothing, and any other set renders `(field__in, join)`.
Note the singleton branch is tested before the full-enumeration branch. -/
def QuerySet.query {Q : Type} [Fintype Q] [DecidableEq Q] (qs : QuerySet Q) :
    Option (String × Finset Q) :=
  match qs.values with
  | none => none
  | some vs =>
    if vs.card = 0 then some (qs.field_name ++ "__in", vs)
    else if vs.card = 1 then some (qs.field_name, vs)
    else if vs.card = Fintype.card Q then none
    else some (qs.field_name ++ "__in", vs)

/-- A call in a sequence of `include()` / `exclude()` invocations. -/
inductive QOp (Q : Type) where
  | inc (v : Q)
  | exc (v : Q)

/-- Apply one `include()` / `exclude()` call. -/
def applyOp {Q : Type} [Fintype Q] [DecidableEq Q]
    (qs : QuerySet Q) : QOp Q → QuerySet Q
  | QOp.inc v => qs.include' v
  | QOp.exc v => qs.exclude v

/-- Apply a sequence of `include()` / `exclude()` calls in order. -/
def applyOps {Q : Type} [Fintype Q] [DecidableEq Q]
    (ops : List (QOp Q)) (qs : QuerySet Q) : QuerySet Q :=
  ops.foldl applyOp qs

/-! ## The tag cache (`src/lib.rs`, `src/tag.rs`) -/

/-- `Tag` of `src/tag.rs`. -/
structure Tag where
  id : Nat
  name : String
  description : Option String
deriving DecidableEq, Repr

/-- The cache `HashMap<u32, Tag>`, modelled observationally as an
association list where insertion shadows older entries. -/
abbrev TagMap : Type := List (Nat × Tag)

/-- `HashMap::get`: the most recently inserted entry for the key wins. -/
def lookupTag : TagMap → Nat → Option Tag
  | [], _ => none
  | (k', v) :: m, k => if k' = k then some v else lookupTag m k

/-- `HashMap::insert` (overwrite semantics: the new entry shadows any
older entry with the same key; no key is ever removed). -/
def insertTag (m : TagMap) (k : Nat) (v : Tag) : TagMap :=
  (k, v) :: m

/-- The outcome of draining a fresh `Paginator<Tag>` over the `tags/`
collection inside `Lava::refresh_tags`: the records yielded before the
traversal stopped, and the error that stopped it, if any (`none` = the
collection was drained completely). -/
structure TagsRun where
  items : List Tag
  failure : Option PaginationError

/-- `Lava::refresh_tags` of `src/lib.rs` (lines 64-74): insert every
yielded record into the cache in order, and report the paginator error
if the sweep failed. -/
def refresh_tags (run : TagsRun) (m : TagMap) : TagMap × Option PaginationError :=
  (run.items.foldl (fun acc t => insertTag acc t.id t) m, run.failure)

/-- `Lava::tag` of `src/lib.rs` (lines 76-88): consult the cache; on a
hit return the cached record.  On a miss perform one `refresh_tags`
sweep, discarding its error (`let _ = ...`), and re-consult the cache
once.  The third component counts the refresh sweeps performed. -/
def Lava.tag (run : TagsRun) (m : TagMap) (id : Nat) :
    TagMap × Option Tag × Nat :=
  match lookupTag m id with
  | some t => (m, some t, 0)
  | none =>
    let r := refresh_tags run m
    (r.1, lookupTag r.1 id, 1)

/-- The tag-resolution step shared by `transform_device`
(`src/device.rs` lines 91-106) and `transform_job` (`src/job.rs` lines
290-324): `stream::iter(ids).filter_map(|i| lava.tag(*i)).collect()`,
with `resolve` the result of `lava.tag` for each id.  Unresolved ids are
silently omitted; no error is produced. -/
def transform_tags (resolve : Nat → Option Tag) (ids : List Nat) : List Tag :=
  ids.filterMap resolve

/-! ## Basic facts about the paginator state machine -/

theorem poll_next_failed {U T : Type} (env : PagEnv U T) (p : Paginator U T)
    (h : p.next = PagState.failed) :
    poll_next env p = (p, Poll.ready none) := by
  obtain ⟨cur, st, cnt⟩ := p
  simp only at h
  subst h
  simp [poll_next, next_data]

theorem poll_next_exhausted {U T : Type} (env : PagEnv U T) (cur : U) (c : Nat) :
    poll_next env ⟨cur, PagState.data ⟨c, none, ([] : List T)⟩, some c⟩
      = (⟨cur, PagState.data ⟨c, none, []⟩, some c⟩, Poll.ready none) := by
  simp [poll_next, next_data]

theorem collect_data_cons {U T : Type} (env : PagEnv U T) (cur : U) (c : Nat)
    (nx : Option String) (x : T) (l : List T) (cnt : Option Nat) (fuel : Nat) :
    collect env (fuel + 1) ⟨cur, PagState.data ⟨c, nx, x :: l⟩, cnt⟩
      = (Except.ok x :: (collect env fuel ⟨cur, PagState.data ⟨c, nx, l⟩, some c⟩).1,
         (collect env fuel ⟨cur, PagState.data ⟨c, nx, l⟩, some c⟩).2) := by
  simp [collect, poll_next, next_data]

theorem collect_data_drain {U T : Type} (env : PagEnv U T) (cur : U) (c : Nat)
    (nx : Option String) (l : List T) (m : Nat) :
    collect env (l.length + m) ⟨cur, PagState.data ⟨c, nx, l⟩, some c⟩
      = (l.map Except.ok
           ++ (collect env m ⟨cur, PagState.data ⟨c, nx, []⟩, some c⟩).1,
         (collect env m ⟨cur, PagState.data ⟨c, nx, []⟩, some c⟩).2) := by
  induction l with
  | nil => simp
  | cons x xs ih =>
    have hlen : (x :: xs).length + m = (xs.length + m) + 1 := by
      simp [Nat.succ_add]
    rw [hlen, collect_data_cons, ih]
    simp

theorem collect_data_end {U T : Type} (env : PagEnv U T) (cur : U) (c m : Nat) :
    collect env (m + 1) ⟨cur, PagState.data ⟨c, none, ([] : List T)⟩, some c⟩
      = ([], true, ⟨cur, PagState.data ⟨c, none, []⟩, some c⟩) := by
  simp [collect, poll_next_exhausted]

theorem poll_next_data_link {U T : Type} (env : PagEnv U T) (cur : U) (c : Nat)
    (n : String) (u : U) (hp : env.parse n = some u) :
    poll_next env ⟨cur, PagState.data ⟨c, some n, ([] : List T)⟩, some c⟩
      = poll_next env ⟨u, PagState.next u, some c⟩ := by
  cases h : env.fetch u <;> simp [poll_next, next_data, hp, h]

theorem collect_congr_poll {U T : Type} (env : PagEnv U T)
    (p q : Paginator U T) (h : poll_next env p = poll_next env q) (fuel : Nat) :
    collect env (fuel + 1) p = collect env (fuel + 1) q := by
  simp only [collect, h]

theorem collect_mono {U T : Type} (env : PagEnv U T) (f : Nat) :
    ∀ (g : Nat) (p : Paginator U T) (l : List (Except PaginationError T))
      (q : Paginator U T), f ≤ g →
      collect env f p = (l, true, q) → collect env g p = (l, true, q) := by
  induction f with
  | zero =>
    intro g p l q _ h
    simp [collect] at h
  | succ f ih =>
    intro g p l q hle h
    obtain ⟨g', rfl⟩ : ∃ g', g = g' + 1 := ⟨g - 1, by omega⟩
    simp only [collect] at h ⊢
    rcases hp : poll_next env p with ⟨p', r⟩
    rw [hp] at h
    match r with
    | Poll.ready none => exact h
    | Poll.ready (some x) =>
      simp only at h ⊢
      rcases hc : collect env f p' with ⟨l', b', q'⟩
      rw [hc] at h
      simp only [Prod.mk.injEq] at h
      obtain ⟨h1, h2, h3⟩ := h
      subst h2
      have : collect env g' p' = (l', true, q') := ih g' p' l' q' (by omega) hc
      rw [this, ← h1, ← h3]
    | Poll.pending =>
      exact ih g' p' l q (by omega) h

/-! ## The stable-server run -/

theorem collect_ready_some {U T : Type} (env : PagEnv U T)
    (p p' : Paginator U T) (x : Except PaginationError T) (fuel : Nat)
    (h : poll_next env p = (p', Poll.ready (some x))) :
    collect env (fuel + 1) p
      = (x :: (collect env fuel p').1, (collect env fuel p').2) := by
  rw [collect, h]

theorem chunks_flatten_bounded {T : Type} :
    ∀ (n s : Nat) (l : List T), l.length ≤ n → (chunks s l).flatten = l := by
  intro n
  induction n with
  | zero =>
    intro s l h
    have : l = [] := List.eq_nil_of_length_eq_zero (by omega)
    subst this
    simp [chunks]
  | succ n ih =>
    intro s l h
    match l with
    | [] => simp [chunks]
    | x :: xs =>
      rw [chunks]
      have hlen : (xs.drop s).length ≤ n := by
        simp at h ⊢
        omega
      simp [ih s (xs.drop s) hlen, List.take_append_drop]

theorem chunks_flatten {T : Type} (s : Nat) (l : List T) :
    (chunks s l).flatten = l :=
  chunks_flatten_bounded l.length s l (Nat.le_refl _)

theorem chunks_ne_nil_bounded {T : Type} :
    ∀ (n s : Nat) (l : List T), l.length ≤ n → ∀ c ∈ chunks s l, c ≠ [] := by
  intro n
  induction n with
  | zero =>
    intro s l h
    have : l = [] := List.eq_nil_of_length_eq_zero (by omega)
    subst this
    simp [chunks]
  | succ n ih =>
    intro s l h
    match l with
    | [] => simp [chunks]
    | x :: xs =>
      rw [chunks]
      intro c hc
      rcases List.mem_cons.mp hc with hh | hh
      · subst hh; simp
      · have hlen : (xs.drop s).length ≤ n := by
          simp at h ⊢
          omega
        exact ih s (xs.drop s) hlen c hh

theorem chunks_ne_nil {T : Type} (s : Nat) (l : List T) :
    ∀ c ∈ chunks s l, c ≠ [] :=
  chunks_ne_nil_bounded l.length s l (Nat.le_refl _)

theorem parse_pageLink {T : Type} (pages : List (List T)) (total j : Nat) :
    (pageEnv pages total).parse (pageLink j) = some j := by
  simp [pageEnv, pageLink]

theorem poll_next_page {T : Type} (pages : List (List T)) (total i : Nat)
    (hlt : i < pages.length) (cnt : Option Nat) (x : T) (rest : List T)
    (hpage : pages.get ⟨i, hlt⟩ = x :: rest) :
    poll_next (pageEnv pages total) ⟨i, PagState.next i, cnt⟩
      = (⟨i, PagState.data
            ⟨total,
             if i + 1 < pages.length then some (pageLink (i + 1)) else none,
             rest⟩, some total⟩,
         Poll.ready (some (Except.ok x))) := by
  simp only [List.get_eq_getElem] at hpage
  simp [poll_next, next_data, pageEnv, hlt, hpage]

theorem collect_pages_aux {T : Type} (pages : List (List T)) (total : Nat)
    (hne : ∀ l ∈ pages, l ≠ []) :
    ∀ (k i : Nat), i + k + 1 = pages.length → ∀ cnt : Option Nat,
      collect (pageEnv pages total)
          (((pages.drop i).map List.length).sum + 1)
          ⟨i, PagState.next i, cnt⟩
        = ((pages.drop i).flatten.map Except.ok, true,
           ⟨pages.length - 1, PagState.data ⟨total, none, []⟩, some total⟩) := by
  intro k
  induction k with
  | zero =>
    intro i hi cnt
    have hlt : i < pages.length := by omega
    obtain ⟨x, rest, hpage⟩ :=
      List.exists_cons_of_ne_nil (hne _ (List.get_mem pages i hlt))
    have hpage2 : pages[i] = x :: rest := hpage
    have hdrop : pages.drop i = (x :: rest) :: pages.drop (i + 1) := by
      rw [List.drop_eq_getElem_cons hlt, hpage2]
    have hdrop1 : pages.drop (i + 1) = [] := by
      apply List.drop_eq_nil_of_le
      omega
    have hfuel : ((pages.drop i).map List.length).sum + 1
        = (rest.length + (0 + 1)) + 1 := by
      rw [hdrop, hdrop1]
      simp
    have hnx : (if i + 1 < pages.length then some (pageLink (i + 1)) else none)
        = none := by
      rw [if_neg]
      omega
    have h1 := poll_next_page pages total i hlt cnt x rest hpage
    rw [hnx] at h1
    rw [hfuel, collect_ready_some _ _ _ _ _ h1, collect_data_drain,
        collect_data_end, hdrop, hdrop1]
    simp
    omega
  | succ k ih =>
    intro i hi cnt
    have hlt : i < pages.length := by omega
    have hlt1 : i + 1 < pages.length := by omega
    obtain ⟨x, rest, hpage⟩ :=
      List.exists_cons_of_ne_nil (hne _ (List.get_mem pages i hlt))
    have hpage2 : pages[i] = x :: rest := hpage
    have hdrop : pages.drop i = (x :: rest) :: pages.drop (i + 1) := by
      rw [List.drop_eq_getElem_cons hlt, hpage2]
    have hfuel : ((pages.drop i).map List.length).sum + 1
        = (rest.length + (((pages.drop (i + 1)).map List.length).sum + 1)) + 1 := by
      rw [hdrop]
      simp
      omega
    have hnx : (if i + 1 < pages.length then some (pageLink (i + 1)) else none)
        = some (pageLink (i + 1)) := if_pos hlt1
    have h1 := poll_next_page pages total i hlt cnt x rest hpage
    rw [hnx] at h1
    have hbridge :
        collect (pageEnv pages total)
            (((pages.drop (i + 1)).map List.length).sum + 1)
            ⟨i, PagState.data ⟨total, some (pageLink (i + 1)), []⟩, some total⟩
          = collect (pageEnv pages total)
            (((pages.drop (i + 1)).map List.length).sum + 1)
            ⟨i + 1, PagState.next (i + 1), some total⟩ :=
      collect_congr_poll _ _ _
        (poll_next_data_link _ _ _ _ _ (parse_pageLink pages total (i + 1))) _
    rw [hfuel, collect_ready_some _ _ _ _ _ h1, collect_data_drain, hbridge,
        ih (i + 1) (by omega) (some total), hdrop]
    simp

theorem collect_paginate_complete {T : Type} (items : List T) (size : Nat)
    (hs : 1 ≤ size) :
    collect (pageEnv (paginate size items) items.length) (items.length + 2)
        (initialPaginator T)
      = (items.map Except.ok, true,
         ⟨(paginate size items).length - 1,
          PagState.data ⟨items.length, none, []⟩, some items.length⟩) := by
  match items with
  | [] => rfl
  | x :: xs =>
    have hpag : paginate size (x :: xs) = chunks (size - 1) (x :: xs) := by
      simp [paginate]
    have hne := chunks_ne_nil (size - 1) (x :: xs)
    have hflat := chunks_flatten (size - 1) (x :: xs)
    have hlen : 1 ≤ (chunks (size - 1) (x :: xs)).length := by
      rw [chunks]
      simp
    have hsum : ((chunks (size - 1) (x :: xs)).map List.length).sum
        = (x :: xs).length := by
      rw [← List.length_flatten, hflat]
    have aux := collect_pages_aux (chunks (size - 1) (x :: xs)) (x :: xs).length
      hne ((chunks (size - 1) (x :: xs)).length - 1) 0 (by omega) none
    rw [List.drop_zero, hflat, hsum] at aux
    rw [hpag]
    exact collect_mono _ _ _ _ _ _ (by omega) aux

theorem collectEnrich_eq_map {U R D : Type} (env : PagEnv U R) (f : R → D) :
    ∀ (fuel : Nat) (p : Paginator U R),
      collectEnrich env f fuel ⟨p, TransformState.paging⟩
        = ((collect env fuel p).1.map (Except.map f),
           (collect env fuel p).2.1,
           ⟨(collect env fuel p).2.2, TransformState.paging⟩) := by
  intro fuel
  induction fuel with
  | zero => intro p; simp [collect, collectEnrich]
  | succ n ih =>
    intro p
    rcases hp : poll_next env p with ⟨p', r⟩
    match r with
    | Poll.ready none =>
      have he : enrich_poll env f ⟨p, TransformState.paging⟩
          = (⟨p', TransformState.paging⟩, Poll.ready none) := by
        simp [enrich_poll, hp]
      rw [collectEnrich, he, collect, hp]
      simp
    | Poll.ready (some (Except.ok d)) =>
      have he : enrich_poll env f ⟨p, TransformState.paging⟩
          = (⟨p', TransformState.paging⟩,
             Poll.ready (some (Except.ok (f d)))) := by
        simp [enrich_poll, hp]
      rw [collectEnrich, he, collect, hp]
      simp [ih p', Except.map]
    | Poll.ready (some (Except.error e)) =>
      have he : enrich_poll env f ⟨p, TransformState.paging⟩
          = (⟨p', TransformState.paging⟩,
             Poll.ready (some (Except.error e))) := by
        simp [enrich_poll, hp]
      rw [collectEnrich, he, collect, hp]
      simp [ih p', Except.map]
    | Poll.pending =>
      have he : enrich_poll env f ⟨p, TransformState.paging⟩
          = (⟨p', TransformState.paging⟩, Poll.pending) := by
        simp [enrich_poll, hp]
      rw [collectEnrich, he, collect, hp]
      exact ih p'

/-! ## Facts about the redirect loop -/

theorem getLoop_chain_ok (ts : List MUrl) :
    ∀ (uri u : MUrl) (c : Nat), c + ts.length ≤ 10 →
      (getLoop uri (redirectChain ts) u c).1.length = ts.length + 1 ∧
      ∃ v, (getLoop uri (redirectChain ts) u c).2 = FetchOutcome.success v := by
  induction ts with
  | nil =>
    intro uri u c _
    simp [redirectChain, getLoop]
  | cons t ts ih =>
    intro uri u c hc
    have hc9 : ¬ c > 9 := by simp at hc ⊢; omega
    have hrec := ih uri
      (if uri.scheme = "https" ∧ t.scheme = "http"
       then { t with scheme := "https" } else t)
      (c + 1) (by simp at hc ⊢; omega)
    simp only [redirectChain, List.map_cons, List.cons_append, getLoop,
      if_neg hc9] at hrec ⊢
    refine ⟨?_, hrec.2⟩
    simp [hrec.1]

theorem getLoop_chain_toomany (ts : List MUrl) :
    ∀ (uri u : MUrl) (c : Nat), c ≤ 10 → 11 ≤ c + ts.length →
      (getLoop uri (redirectChain ts) u c).2
        = FetchOutcome.failure PaginationError.tooManyRedirects ∧
      (getLoop uri (redirectChain ts) u c).1.length = 11 - c := by
  induction ts with
  | nil =>
    intro uri u c hc hwide
    simp at hwide
    omega
  | cons t ts ih =>
    intro uri u c hc hwide
    by_cases h9 : c > 9
    · have hc10 : c = 10 := by omega
      subst hc10
      simp [redirectChain, getLoop]
    · have hrec := ih uri
        (if uri.scheme = "https" ∧ t.scheme = "http"
         then { t with scheme := "https" } else t)
        (c + 1) (by omega) (by simp at hwide ⊢; omega)
      simp only [redirectChain, List.map_cons, List.cons_append, getLoop,
        if_neg h9] at hrec ⊢
      refine ⟨hrec.1, ?_⟩
      simp [hrec.2]
      omega

theorem getLoop_https (uri : MUrl) (hsec : uri.scheme = "https") :
    ∀ (script : List HttpResponse) (u : MUrl) (c : Nat),
      (∀ u2 : MUrl,
         HttpResponse.redirect (some (Location.resolvesTo u2)) ∈ script →
         u2.scheme = "http" ∨ u2.scheme = "https") →
      u.scheme = "https" →
      ∀ v ∈ (getLoop uri script u c).1, v.scheme = "https" := by
  intro script
  induction script with
  | nil =>
    intro u c _ hu v hv
    simp [getLoop] at hv
    subst hv
    exact hu
  | cons r rs ih =>
    intro u c hloc hu v hv
    match r with
    | HttpResponse.transportError m =>
      simp [getLoop] at hv
      subst hv
      exact hu
    | HttpResponse.success =>
      simp [getLoop] at hv
      subst hv
      exact hu
    | HttpResponse.redirect loc =>
      by_cases h9 : c > 9
      · simp [getLoop, if_pos h9] at hv
        subst hv
        exact hu
      · match loc with
        | none =>
          simp [getLoop, if_neg h9] at hv
          subst hv
          exact hu
        | some Location.invalidUTF8 =>
          simp [getLoop, if_neg h9] at hv
          subst hv
          exact hu
        | some (Location.unparseable m) =>
          simp [getLoop, if_neg h9] at hv
          subst hv
          exact hu
        | some (Location.resolvesTo u2) =>
          simp only [getLoop, if_neg h9] at hv
          rcases List.mem_cons.mp hv with hh | hh
          · subst hh
            exact hu
          · have hu2 : u2.scheme = "http" ∨ u2.scheme = "https" :=
              hloc u2 (by simp)
            have hloc' : ∀ u3 : MUrl,
                HttpResponse.redirect (some (Location.resolvesTo u3)) ∈ rs →
                u3.scheme = "http" ∨ u3.scheme = "https" := by
              intro u3 h3
              exact hloc u3 (List.mem_cons_of_mem _ h3)
            apply ih _ (c + 1) hloc' _ v hh
            by_cases hdown : uri.scheme = "https" ∧ u2.scheme = "http"
            · simp [if_pos hdown]
            · rw [if_neg hdown]
              rcases hu2 with h | h
              · exact absurd ⟨hsec, h⟩ hdown
              · exact h

/-! ## Facts about the query set -/

theorem query_of_univ {Q : Type} [Fintype Q] [DecidableEq Q]
    (h2 : 2 ≤ Fintype.card Q) (qs : QuerySet Q)
    (hv : qs.values = some (Finset.univ : Finset Q)) : qs.query = none := by
  simp only [QuerySet.query, hv]
  rw [Finset.card_univ, if_neg (by omega), if_neg (by omega), if_pos rfl]

theorem applyOps_inc_values {Q : Type} [Fintype Q] [DecidableEq Q] :
    ∀ (l : List Q) (qs : QuerySet Q) (s : Finset Q), qs.values = some s →
      (applyOps (l.map QOp.inc) qs).values = some (s ∪ l.toFinset) := by
  intro l
  induction l with
  | nil =>
    intro qs s h
    simp [applyOps, h]
  | cons x xs ih =>
    intro qs s h
    have step : applyOps ((x :: xs).map QOp.inc) qs
        = applyOps (xs.map QOp.inc) (qs.include' x) := rfl
    have hval : (qs.include' x).values = some (insert x s) := by
      simp [QuerySet.include', h]
    rw [step, ih _ _ hval]
    congr 1
    rw [List.toFinset_cons, Finset.insert_union, Finset.union_insert]

/-! ## Facts about the tag cache -/

theorem refresh_fold_eq (l : List Tag) :
    ∀ m : TagMap,
      l.foldl (fun acc t => insertTag acc t.id t) m
        = (l.reverse.map (fun t => (t.id, t))) ++ m := by
  induction l with
  | nil => intro m; simp
  | cons x xs ih =>
    intro m
    show xs.foldl (fun acc t => insertTag acc t.id t) (insertTag m x.id x) = _
    rw [ih]
    simp [insertTag]

theorem lookupTag_append (a : TagMap) :
    ∀ (b : TagMap) (k : Nat),
      lookupTag (a ++ b) k
        = match lookupTag a k with
          | some t => some t
          | none => lookupTag b k := by
  induction a with
  | nil => intro b k; simp [lookupTag]
  | cons p a ih =>
    intro b k
    obtain ⟨k', v⟩ := p
    by_cases h : k' = k
    · simp [lookupTag, h]
    · simp [lookupTag, h, ih b k]

theorem lookupTag_map_mem (l : List Tag) :
    ∀ t ∈ l, ∃ t', t' ∈ l ∧ t'.id = t.id ∧
      lookupTag (l.map (fun t => (t.id, t))) t.id = some t' := by
  induction l with
  | nil => intro t ht; simp at ht
  | cons y ys ih =>
    intro t ht
    by_cases h : y.id = t.id
    · exact ⟨y, List.mem_cons_self y ys, h, by simp [lookupTag, h]⟩
    · have hty : t ∈ ys := by
        rcases List.mem_cons.mp ht with hh | hh
        · subst hh; exact absurd rfl h
        · exact hh
      obtain ⟨t', ht', hid, hlook⟩ := ih t hty
      exact ⟨t', List.mem_cons_of_mem _ ht', hid, by simp [lookupTag, h, hlook]⟩

theorem lookupTag_revmap_mem (l : List Tag) (t : Tag) (ht : t ∈ l) :
    ∃ t', t' ∈ l ∧ t'.id = t.id ∧
      lookupTag (l.reverse.map (fun t => (t.id, t))) t.id = some t' := by
  obtain ⟨t', ht', hid, hlook⟩ :=
    lookupTag_map_mem l.reverse t (List.mem_reverse.mpr ht)
  exact ⟨t', List.mem_reverse.mp ht', hid, hlook⟩

/-! ## Claims -/

/-- C1: over a stable remote collection of `N` items served with any fixed
page size `≥ 1`, with pages reported in order via correct next links,
repeatedly polling the paginator stream yields exactly the `N` items as
`Ok` results, each exactly once, in the server-declared order, after which
the stream reaches end-of-stream and every further poll again returns
end-of-stream.  This covers `N = 0` and `N` a multiple of the page size. -/
theorem c1_stable_pagination_yields_all {T : Type} (items : List T)
    (size : Nat) (hsize : 1 ≤ size) :
    ∃ q : Paginator Nat T,
      collect (pageEnv (paginate size items) items.length) (items.length + 2)
          (initialPaginator T)
        = (items.map Except.ok, true, q)
      ∧ poll_next (pageEnv (paginate size items) items.length) q
          = (q, Poll.ready none) :=
  ⟨_, collect_paginate_complete items size hsize, poll_next_exhausted _ _ _⟩

/-- Witness for C1 at three items and page size two. -/
theorem c1_stable_pagination_yields_all_witness :
    1 ≤ 2
  ∧ ∃ q : Paginator Nat Nat,
      collect (pageEnv (paginate 2 [10, 20, 30]) (List.length [10, 20, 30]))
          (List.length [10, 20, 30] + 2) (initialPaginator Nat)
        = ([10, 20, 30].map Except.ok, true, q)
      ∧ poll_next (pageEnv (paginate 2 [10, 20, 30]) (List.length [10, 20, 30])) q
          = (q, Poll.ready none) :=
  ⟨by omega, c1_stable_pagination_yields_all [10, 20, 30] 2 (by omega)⟩

/-- C5: when a page fetch completes with an error (transport, HTTP status,
body decoding, redirect failure — any error produced by `Paginator::get`),
the paginator surfaces that error as the current stream item and leaves
its state with a fetch of exactly the failed URL re-scheduled (the state
is unchanged: still `Next` of the same URL, which the next poll will fetch
again); in particular the stream is not terminated. -/
theorem c5_fetch_error_surfaces_and_retries {U T : Type} (env : PagEnv U T)
    (p : Paginator U T) (u : U) (e : PaginationError)
    (hst : p.next = PagState.next u) (hcur : p.current = u)
    (hf : env.fetch u = Except.error e) :
    poll_next env p = (p, Poll.ready (some (Except.error e))) := by
  obtain ⟨cur, st, cnt⟩ := p
  simp only at hst hcur
  subst hst
  subst hcur
  simp [poll_next, next_data, hf]

/-- Witness for C5 at a concrete failing fetch. -/
theorem c5_fetch_error_surfaces_and_retries_witness :
    (Paginator.mk 5 (PagState.next 5) none : Paginator Nat Nat).next
        = PagState.next 5
  ∧ poll_next
      (PagEnv.mk (fun _ => none)
        (fun _ => Except.error (PaginationError.reqWest "boom")) : PagEnv Nat Nat)
      ⟨5, PagState.next 5, none⟩
      = (⟨5, PagState.next 5, none⟩,
         Poll.ready (some (Except.error (PaginationError.reqWest "boom")))) :=
  ⟨rfl, c5_fetch_error_surfaces_and_retries _ _ 5 _ rfl rfl rfl⟩

/-- C6: when a received page's next field fails to parse as a URL, the
paginator surfaces the parse error exactly once as a stream item and moves
to the terminal `Failed` state; from `Failed`, every poll returns
end-of-stream with the state unchanged, so no further items or errors are
ever produced. -/
theorem c6_malformed_next_is_terminal {U T : Type} (env : PagEnv U T) :
    (∀ (p : Paginator U T) (c : Nat) (n : String),
       p.next = PagState.data ⟨c, some n, []⟩ → env.parse n = none →
       poll_next env p
         = ({ p with next := PagState.failed, count := some c },
            Poll.ready (some (Except.error (PaginationError.parseNextError n)))))
  ∧ (∀ p : Paginator U T, p.next = PagState.failed →
       poll_next env p = (p, Poll.ready none))
  ∧ (∀ (p : Paginator U T) (fuel : Nat), p.next = PagState.failed →
       collect env (fuel + 1) p = ([], true, p)) := by
  refine ⟨?_, poll_next_failed env, ?_⟩
  · intro p c n hst hparse
    obtain ⟨cur, st, cnt⟩ := p
    simp only at hst
    subst hst
    simp [poll_next, next_data, hparse]
  · intro p fuel h
    rw [collect, poll_next_failed env p h]

/-- Witness for C6 at a concrete malformed next link. -/
theorem c6_malformed_next_is_terminal_witness :
    (Paginator.mk 0 (PagState.data ⟨7, some "bad", []⟩) none
        : Paginator Nat Nat).next = PagState.data ⟨7, some "bad", []⟩
  ∧ poll_next
      (PagEnv.mk (fun _ => none) (fun _ => Except.error PaginationError.tooManyRedirects)
        : PagEnv Nat Nat)
      ⟨0, PagState.data ⟨7, some "bad", []⟩, none⟩
      = (⟨0, PagState.failed, some 7⟩,
         Poll.ready (some (Except.error (PaginationError.parseNextError "bad"))))
  ∧ poll_next
      (PagEnv.mk (fun _ => none) (fun _ => Except.error PaginationError.tooManyRedirects)
        : PagEnv Nat Nat)
      ⟨0, PagState.failed, some 7⟩
      = (⟨0, PagState.failed, some 7⟩, Poll.ready none) :=
  ⟨rfl,
   (c6_malformed_next_is_terminal _).1 _ 7 "bad" rfl rfl,
   (c6_malformed_next_is_terminal _).2.1 _ rfl⟩

/-- C3 counterexample: a response chain of exactly 10 redirects (each to a
valid target) followed by a success is *followed to completion* by
`Paginator::get` — 11 requests are issued and the fetch succeeds — whereas
the claim says a chain requiring a 10th redirect fails with
`TooManyRedirects` instead of issuing a further request. -/
theorem c3_counterexample :
    (get ⟨"https", "a"⟩ (redirectChain (List.replicate 10 ⟨"https", "b"⟩))).2
        = FetchOutcome.success ⟨"https", "b"⟩
  ∧ (get ⟨"https", "a"⟩ (redirectChain (List.replicate 10 ⟨"https", "b"⟩))).1.length
        = 11
  ∧ (get ⟨"https", "a"⟩ (redirectChain (List.replicate 10 ⟨"https", "b"⟩))).2
        ≠ FetchOutcome.failure PaginationError.tooManyRedirects := by
  refine ⟨by decide, by decide, by decide⟩

/-- C3 as amended: `Paginator::get` follows HTTP redirects up to a bound
of 10 hops — a chain of `n ≤ 10` redirects is followed (`n + 1` requests)
and the fetch proceeds — and on a chain requiring an 11th redirect to be
followed the fetch fails with `TooManyRedirects` after exactly 11
requests, i.e. without issuing a further request. -/
theorem c3_redirect_bound_is_ten (uri : MUrl) (targets : List MUrl) :
    (targets.length ≤ 10 →
       (get uri (redirectChain targets)).1.length = targets.length + 1
       ∧ ∃ v, (get uri (redirectChain targets)).2 = FetchOutcome.success v)
  ∧ (11 ≤ targets.length →
       (get uri (redirectChain targets)).2
         = FetchOutcome.failure PaginationError.tooManyRedirects
       ∧ (get uri (redirectChain targets)).1.length = 11) := by
  constructor
  · intro h
    exact getLoop_chain_ok targets uri uri 0 (by omega)
  · intro h
    exact getLoop_chain_toomany targets uri uri 0 (by omega) (by omega)

/-- Witness for C3 (amended) at chains of 3 and of 11 redirects. -/
theorem c3_redirect_bound_is_ten_witness :
    ((List.replicate 3 (⟨"https", "b"⟩ : MUrl)).length ≤ 10
      ∧ ((get ⟨"https", "a"⟩ (redirectChain (List.replicate 3 ⟨"https", "b"⟩))).1.length
            = (List.replicate 3 (⟨"https", "b"⟩ : MUrl)).length + 1
         ∧ ∃ v, (get ⟨"https", "a"⟩
              (redirectChain (List.replicate 3 ⟨"https", "b"⟩))).2
            = FetchOutcome.success v))
  ∧ (11 ≤ (List.replicate 11 (⟨"https", "b"⟩ : MUrl)).length
      ∧ ((get ⟨"https", "a"⟩ (redirectChain (List.replicate 11 ⟨"https", "b"⟩))).2
            = FetchOutcome.failure PaginationError.tooManyRedirects
         ∧ (get ⟨"https", "a"⟩
              (redirectChain (List.replicate 11 ⟨"https", "b"⟩))).1.length = 11)) :=
  ⟨⟨by decide, (c3_redirect_bound_is_ten ⟨"https", "a"⟩ _).1 (by decide)⟩,
   ⟨by decide, (c3_redirect_bound_is_ten ⟨"https", "a"⟩ _).2 (by decide)⟩⟩

/-- C7: throughout the redirect loop of a single page fetch, if the
original request URL's scheme is `https`, then every request issued during
that fetch uses the `https` scheme: whenever a redirect location resolves
to an `http` URL its scheme is forced back to `https` before the request
is sent (redirect locations are assumed to resolve to `http` or `https`
URLs, the domain of HTTP redirects). -/
theorem c7_https_never_downgraded (uri : MUrl) (script : List HttpResponse)
    (hsec : uri.scheme = "https")
    (hloc : ∀ u2 : MUrl,
       HttpResponse.redirect (some (Location.resolvesTo u2)) ∈ script →
       u2.scheme = "http" ∨ u2.scheme = "https") :
    ∀ v ∈ (get uri script).1, v.scheme = "https" :=
  getLoop_https uri hsec script uri 0 hloc hsec

/-- Witness for C7 at a redirect pointing to an insecure URL. -/
theorem c7_https_never_downgraded_witness :
    (⟨"https", "a"⟩ : MUrl).scheme = "https"
  ∧ ∀ v ∈ (get ⟨"https", "a"⟩
        [HttpResponse.redirect (some (Location.resolvesTo ⟨"http", "evil"⟩)),
         HttpResponse.success]).1, v.scheme = "https" :=
  ⟨rfl,
   c7_https_never_downgraded _ _ rfl (by
     intro u2 h
     simp at h
     subst h
     left
     rfl)⟩

/-- C2 counterexample: on a 1-member enumeration (`Unit`), including the
sole member makes the accumulated allowed set equal to the full
enumeration, yet `query()` emits a parameter (the singleton branch of
`query` is tested before the full-enumeration branch), contradicting the
claim for `k = 1`. -/
theorem c2_counterexample :
    (applyOps [QOp.inc ()] (QuerySet.new Unit "state")).values
        = some (Finset.univ : Finset Unit)
  ∧ (applyOps [QOp.inc ()] (QuerySet.new Unit "state")).query ≠ none :=
  ⟨by decide, by decide⟩

/-- C2 as amended: for every enumeration with at least 2 members, any
sequence of `include()` / `exclude()` calls whose accumulated allowed set
equals the full enumeration makes `query()` return `none` (no query
parameter); in particular, on a fresh `QuerySet`, including all members
one at a time via `include()` results in `query()` returning `none`. -/
theorem c2_full_enumeration_renders_nothing {Q : Type} [Fintype Q]
    [DecidableEq Q] (h2 : 2 ≤ Fintype.card Q) (f : String) :
    (∀ ops : List (QOp Q),
       (applyOps ops (QuerySet.new Q f)).values = some (Finset.univ : Finset Q) →
       (applyOps ops (QuerySet.new Q f)).query = none)
  ∧ (∀ l : List Q, (∀ v : Q, v ∈ l) →
       (applyOps (l.map QOp.inc) (QuerySet.new Q f)).query = none) := by
  constructor
  · intro ops hv
    exact query_of_univ h2 _ hv
  · intro l hl
    match l with
    | [] =>
      exfalso
      have hempty : IsEmpty Q := ⟨fun v => by simpa using hl v⟩
      have := Fintype.card_eq_zero_iff.mpr hempty
      omega
    | x :: xs =>
      apply query_of_univ h2
      have step : applyOps ((x :: xs).map QOp.inc) (QuerySet.new Q f)
          = applyOps (xs.map QOp.inc) ((QuerySet.new Q f).include' x) := rfl
      have hval : ((QuerySet.new Q f).include' x).values
          = some ({x} : Finset Q) := by
        simp [QuerySet.include', QuerySet.new]
      rw [step, applyOps_inc_values xs _ _ hval]
      congr 1
      apply Finset.eq_univ_iff_forall.mpr
      intro v
      rcases List.mem_cons.mp (hl v) with h | h
      · subst h
        exact Finset.mem_union_left _ (Finset.mem_singleton_self v)
      · exact Finset.mem_union_right _ (List.mem_toFinset.mpr h)

/-- Witness for C2 (amended) on `Bool`: including both members renders no
parameter. -/
theorem c2_full_enumeration_renders_nothing_witness :
    2 ≤ Fintype.card Bool
  ∧ (applyOps [QOp.inc true, QOp.inc false] (QuerySet.new Bool "state")).values
      = some (Finset.univ : Finset Bool)
  ∧ (applyOps [QOp.inc true, QOp.inc false] (QuerySet.new Bool "state")).query
      = none :=
  have hv : (applyOps [QOp.inc true, QOp.inc false]
      (QuerySet.new Bool "state")).values = some (Finset.univ : Finset Bool) := by
    show some (insert false (insert true (∅ : Finset Bool))) = _
    congr 1
    apply Finset.eq_univ_iff_forall.mpr
    intro b
    cases b <;> simp
  ⟨by decide, hv,
   (c2_full_enumeration_renders_nothing (by decide) "state").1
     [QOp.inc true, QOp.inc false] hv⟩

/-- C4 counterexample: on a 1-member enumeration (`Unit`),
`exclude(E).include(E)` leaves the allowed set equal to the full
enumeration, which is a singleton, so `query()` emits the single-value
parameter instead of no parameter — contradicting the claim's first half
for `k = 1`. -/
theorem c4_counterexample :
    (((QuerySet.new Unit "state").exclude ()).include' ()).query ≠ none := by
  decide

/-- C4 as amended: for every member `E`: on an enumeration with at least 2
members, a fresh `QuerySet` with `exclude(E)` then `include(E)` renders no
parameter from `query()`; and on every enumeration, a fresh `QuerySet`
with `include(E)` then `exclude(E)` renders the empty-set parameter (key
`field__in`, value the empty value set, whose comma-join is the empty
string). -/
theorem c4_first_call_asymmetry {Q : Type} [Fintype Q] [DecidableEq Q]
    (E : Q) (f : String) :
    (2 ≤ Fintype.card Q →
       (((QuerySet.new Q f).exclude E).include' E).query = none)
  ∧ (((QuerySet.new Q f).include' E).exclude E).query
      = some (f ++ "__in", (∅ : Finset Q)) := by
  constructor
  · intro h2
    apply query_of_univ h2
    simp [QuerySet.include', QuerySet.exclude, QuerySet.new,
      Finset.insert_erase (Finset.mem_univ E)]
  · have hval : (((QuerySet.new Q f).include' E).exclude E).values
        = some (∅ : Finset Q) := by
      simp [QuerySet.include', QuerySet.exclude, QuerySet.new]
    simp [QuerySet.query, hval]
    rfl

/-- Witness for C4 (amended) on `Bool` with `E = true`. -/
theorem c4_first_call_asymmetry_witness :
    2 ≤ Fintype.card Bool
  ∧ (((QuerySet.new Bool "state").exclude true).include' true).query = none
  ∧ (((QuerySet.new Bool "state").include' true).exclude true).query
      = some ("state" ++ "__in", (∅ : Finset Bool)) :=
  ⟨by decide,
   (c4_first_call_asymmetry true "state").1 (by decide),
   (c4_first_call_asymmetry true "state").2⟩

/-- C8: the enriched streams (`Devices` / `Jobs`) yield their items in
exactly the order the underlying paginator produced the raw DTOs, one
transform at a time: for any underlying paginator behaviour, the enriched
stream's output equals the paginator's output with every `Ok` item mapped
through the transform function (errors and end-of-stream forwarded in
place); in particular over a stable server the enriched stream yields
exactly the transformed items in order and then ends. -/
theorem c8_enrichment_preserves_order {R D : Type} (f : R → D)
    (items : List R) (size : Nat) (hsize : 1 ≤ size) :
    (∀ (U : Type) (env : PagEnv U R) (fuel : Nat) (p : Paginator U R),
       collectEnrich env f fuel ⟨p, TransformState.paging⟩
         = ((collect env fuel p).1.map (Except.map f),
            (collect env fuel p).2.1,
            ⟨(collect env fuel p).2.2, TransformState.paging⟩))
  ∧ (∃ e, collectEnrich (pageEnv (paginate size items) items.length) f
        (items.length + 2) ⟨initialPaginator R, TransformState.paging⟩
      = ((items.map f).map Except.ok, true, e)) := by
  refine ⟨fun U env fuel p => collectEnrich_eq_map env f fuel p,
    ⟨⟨⟨(paginate size items).length - 1,
       PagState.data ⟨items.length, none, []⟩, some items.length⟩,
      TransformState.paging⟩, ?_⟩⟩
  rw [collectEnrich_eq_map, collect_paginate_complete items size hsize]
  simp [List.map_map, Function.comp, Except.map]

/-- Witness for C8 at two items, page size one, transform `Nat.succ`. -/
theorem c8_enrichment_preserves_order_witness :
    1 ≤ 1
  ∧ ((∀ (U : Type) (env : PagEnv U Nat) (fuel : Nat) (p : Paginator U Nat),
       collectEnrich env Nat.succ fuel ⟨p, TransformState.paging⟩
         = ((collect env fuel p).1.map (Except.map Nat.succ),
            (collect env fuel p).2.1,
            ⟨(collect env fuel p).2.2, TransformState.paging⟩))
  ∧ (∃ e, collectEnrich (pageEnv (paginate 1 [1, 2]) (List.length [1, 2]))
        Nat.succ (List.length [1, 2] + 2)
        ⟨initialPaginator Nat, TransformState.paging⟩
      = (([1, 2].map Nat.succ).map Except.ok, true, e))) :=
  ⟨by omega, c8_enrichment_preserves_order Nat.succ [1, 2] 1 (by omega)⟩

/-- C9: `Lava::tag` is a read-through lookup: a cached id returns the
cached record with no refresh and no cache modification; an absent id
triggers exactly one `refresh_tags` sweep — which makes every record of
the sweep retrievable (the retrieved record coming from the sweep,
overwriting older entries for that id) and never removes an existing key —
then re-consults the cache exactly once and returns `none` if the id is
still absent. -/
theorem c9_tag_cache_read_through (run : TagsRun) (m : TagMap) (id : Nat) :
    (∀ t : Tag, lookupTag m id = some t → Lava.tag run m id = (m, some t, 0))
  ∧ (lookupTag m id = none →
       Lava.tag run m id
         = ((refresh_tags run m).1, lookupTag (refresh_tags run m).1 id, 1)
       ∧ (∀ t ∈ run.items, ∃ t', t' ∈ run.items ∧ t'.id = t.id ∧
            lookupTag (refresh_tags run m).1 t.id = some t')
       ∧ (∀ k : Nat, (lookupTag m k).isSome →
            (lookupTag (refresh_tags run m).1 k).isSome)
       ∧ (lookupTag (refresh_tags run m).1 id = none →
            (Lava.tag run m id).2.1 = none)) := by
  have hfold : (refresh_tags run m).1
      = (run.items.reverse.map (fun t => (t.id, t))) ++ m :=
    refresh_fold_eq run.items m
  constructor
  · intro t h
    simp [Lava.tag, h]
  · intro hmiss
    refine ⟨by simp [Lava.tag, hmiss], ?_, ?_, ?_⟩
    · intro t ht
      obtain ⟨t', ht', hid, hlook⟩ := lookupTag_revmap_mem run.items t ht
      refine ⟨t', ht', hid, ?_⟩
      rw [hfold, lookupTag_append, hlook]
    · intro k hk
      rw [hfold, lookupTag_append]
      rcases hl : lookupTag (run.items.reverse.map (fun t => (t.id, t))) k
        with _ | t
      · rw [hl]
        simpa using hk
      · rw [hl]
        simp
    · intro habs
      simp [Lava.tag, hmiss, habs]

/-- Witness for C9 at a concrete cache hit. -/
theorem c9_tag_cache_read_through_witness :
    lookupTag [(3, ⟨3, "a", none⟩)] 3 = some ⟨3, "a", none⟩
  ∧ Lava.tag ⟨[], none⟩ [(3, ⟨3, "a", none⟩)] 3
      = ([(3, ⟨3, "a", none⟩)], some ⟨3, "a", none⟩, 0) :=
  ⟨rfl, (c9_tag_cache_read_through ⟨[], none⟩ [(3, ⟨3, "a", none⟩)] 3).1 _ rfl⟩

/-- C10: a refresh failure inside `Lava::tag` is discarded: the outcome of
`tag` with a failing sweep equals the outcome with a successful sweep that
retrieved the same records (so a failed refresh is indistinguishable from
a genuine not-found); if the id is absent from the post-refresh cache the
result is `none`; and the enrichment stage's tag resolution silently drops
an unresolved id from the result list instead of surfacing any error. -/
theorem c10_failed_refresh_indistinguishable (items : List Tag)
    (e : PaginationError) (m : TagMap) (id : Nat)
    (resolve : Nat → Option Tag) (i : Nat) (ids : List Nat) :
    Lava.tag ⟨items, some e⟩ m id = Lava.tag ⟨items, none⟩ m id
  ∧ (lookupTag (refresh_tags ⟨items, some e⟩ m).1 id = none →
       (Lava.tag ⟨items, some e⟩ m id).2.1 = none)
  ∧ (resolve i = none →
       transform_tags resolve (i :: ids) = transform_tags resolve ids) := by
  refine ⟨rfl, ?_, ?_⟩
  · intro h
    have hm : lookupTag m id = none := by
      rw [show (refresh_tags ⟨items, some e⟩ m).1
            = (items.reverse.map (fun t => (t.id, t))) ++ m from
          refresh_fold_eq items m,
        lookupTag_append] at h
      rcases hl : lookupTag (items.reverse.map (fun t => (t.id, t))) id
        with _ | t
      · rw [hl] at h
        simpa using h
      · rw [hl] at h
        simp at h
    simp [Lava.tag, hm, h]
  · intro h
    simp [transform_tags, h]

/-- Witness for C10 at a failing sweep and an unresolvable id. -/
theorem c10_failed_refresh_indistinguishable_witness :
    Lava.tag ⟨[⟨3, "a", none⟩], some (PaginationError.reqWest "boom")⟩ [] 9
      = Lava.tag ⟨[⟨3, "a", none⟩], none⟩ [] 9
  ∧ (Lava.tag ⟨[⟨3, "a", none⟩], some (PaginationError.reqWest "boom")⟩ [] 9).2.1
      = none
  ∧ transform_tags (fun n => if n = 3 then some ⟨3, "a", none⟩ else none) [9, 3]
      = transform_tags (fun n => if n = 3 then some ⟨3, "a", none⟩ else none) [3] :=
  ⟨(c10_failed_refresh_indistinguishable [⟨3, "a", none⟩]
      (PaginationError.reqWest "boom") [] 9
      (fun n => if n = 3 then some ⟨3, "a", none⟩ else none) 9 [3]).1,
   (c10_failed_refresh_indistinguishable [⟨3, "a", none⟩]
      (PaginationError.reqWest "boom") [] 9
      (fun n => if n = 3 then some ⟨3, "a", none⟩ else none) 9 [3]).2.1 rfl,
   (c10_failed_refresh_indistinguishable [⟨3, "a", none⟩]
      (PaginationError.reqWest "boom") [] 9
      (fun n => if n = 3 then some ⟨3, "a", none⟩ else none) 9 [3]).2.2 rfl⟩

end LavaApi


